import Mathlib

/-!
Verification of the backgammon rule engine of this repository.

The authoritative engine lives in `src/app/api/moves/route.ts` (helpers
`canBearOff`, `getFurthestChecker`, `isValidMove`, `executeMove`,
`hasValidMoves`, `checkWinner`, `getMovesFromDice` and the `POST` handler);
the client prediction layer lives in `src/app/game/[roomCode]/page.tsx`
(`calculateValidMoves`, `applyLocalMove`, `handleMove`, `handleUndo`);
the initial layout in `src/app/api/rooms/route.ts` (`getInitialBoard`).
Each definition below is a direct transcription of one of those functions.
Boards are total functions `Fin 24 → Int` (the TS code only indexes the
board inside the 0..23 range on the inputs considered here; `boardAt`
guards the few computed-index reads exactly where the TS code range-checks
or where dice values 1..6 keep the index in range).  Dice randomness is
externalized: the rolled pair is an input of the `roll` action.
-/

namespace Backgammon

/-- Player 1 (positive checkers) or Player 2 (negative checkers). -/
inductive Player where
  | one
  | two
deriving DecidableEq, Repr

/-- Sign used throughout the TS code: `player === 1 ? 1 : -1`. -/
def playerSign : Player → Int
  | .one => 1
  | .two => -1

/-- Opponent of a player, as in `player === 1 ? 2 : 1`. -/
def otherPlayer : Player → Player
  | .one => .two
  | .two => .one

/-- Board: 24 points, each a signed checker count (positive = Player 1). -/
abbrev Board := Fin 24 → Int

/-- Per-player counter pair, as the TS `{ player1, player2 }` records. -/
structure PairCount where
  player1 : Int
  player2 : Int
deriving DecidableEq, Repr

/-- Read the counter of one player from a pair. -/
def PairCount.get (c : PairCount) : Player → Int
  | .one => c.player1
  | .two => c.player2

/-- Origin of a move: a point index or the bar. -/
inductive Origin where
  | point (i : Fin 24)
  | bar
deriving DecidableEq, Repr

/-- Destination of a move: a point index or off the board. -/
inductive Dest where
  | point (i : Fin 24)
  | off
deriving DecidableEq, Repr

/-- Board read at a computed integer index; out-of-range reads yield 0.
The TS code either range-checks first, or compares the undefined read in a
way that agrees with the 0 default on the in-range dice values 1..6. -/
def boardAt (board : Board) (i : Int) : Int :=
  if h : 0 ≤ i ∧ i < 24 then board ⟨i.toNat, by omega⟩ else 0

/-- Transcription of `getMovesFromDice` (route.ts): doubles give 4 moves. -/
def getMovesFromDice (dice : List ℕ) : List ℕ :=
  match dice with
  | d1 :: d2 :: _ => if d1 = d2 then [d1, d1, d1, d1] else dice
  | _ => dice

/-- Transcription of `canBearOff` (route.ts): a player may bear off iff no
checker of theirs is on the bar and no checker sits outside the home
quadrant (indices 18..23 for Player 1, 0..5 for Player 2). -/
def canBearOff (board : Board) (bar : PairCount) (player : Player) : Bool :=
  let barCount := bar.get player
  if barCount > 0 then false
  else
    match player with
    | .one => decide (∀ i : Fin 24, i.val < 18 → board i ≤ 0)
    | .two => decide (∀ i : Fin 24, 6 ≤ i.val → 0 ≤ board i)

/-- First index in `l` satisfying `p`, as an integer, `-1` if none: the
shape of the `for`-loops in `getFurthestChecker`. -/
def findFirstIdx (p : Fin 24 → Bool) : List (Fin 24) → Int
  | [] => -1
  | i :: is => if p i then (i.val : Int) else findFirstIdx p is

/-- Transcription of `getFurthestChecker` (route.ts): the lowest index with
a Player 1 checker (scanning 0..23), resp. the highest index with a Player 2
checker (scanning 23..0); `-1` if none. -/
def getFurthestChecker (board : Board) : Player → Int
  | .one => findFirstIdx (fun i => decide (0 < board i)) (List.finRange 24)
  | .two => findFirstIdx (fun i => decide (board i < 0)) (List.finRange 24).reverse

/-- Transcription of `isValidMove` (route.ts): single-move legality. -/
def isValidMove (board : Board) (bar : PairCount) (borneOff : PairCount)
    (src : Origin) (dst : Dest) (dieValue : ℕ) (player : Player) : Bool :=
  let s := playerSign player
  let barCount := bar.get player
  if barCount > 0 ∧ src ≠ Origin.bar then false
  else
    match src with
    | .bar =>
      if barCount = 0 then false
      else
        let entry : Int :=
          match player with
          | .one => (dieValue : Int) - 1
          | .two => 24 - (dieValue : Int)
        if boardAt board entry * s < -1 then false
        else
          match dst with
          | .point j => decide ((j.val : Int) = entry)
          | .off => false
    | .point f =>
      if board f * s ≤ 0 then false
      else
        let dest : Int :=
          match player with
          | .one => (f.val : Int) + dieValue
          | .two => (f.val : Int) - dieValue
        match dst with
        | .off =>
          if !canBearOff board bar player then false
          else
            match player with
            | .one =>
              if dest = 24 then true
              else if dest > 24 then decide (getFurthestChecker board .one ≥ (f.val : Int))
              else false
            | .two =>
              if dest = -1 then true
              else if dest < -1 then decide (getFurthestChecker board .two ≤ (f.val : Int))
              else false
        | .point t =>
          if dest < 0 ∨ dest > 23 then false
          else if boardAt board dest * s < -1 then false
          else decide ((t.val : Int) = dest)

/-- Decrement one player's counter, as `newBar.player1--` / `--player2`. -/
def PairCount.dec (c : PairCount) : Player → PairCount
  | .one => { c with player1 := c.player1 - 1 }
  | .two => { c with player2 := c.player2 - 1 }

/-- Increment one player's counter, as `newBorneOff.player1++` / `++`. -/
def PairCount.inc (c : PairCount) : Player → PairCount
  | .one => { c with player1 := c.player1 + 1 }
  | .two => { c with player2 := c.player2 + 1 }

/-- Result record of the server's `executeMove`. -/
structure ExecResult where
  board : Board
  bar : PairCount
  borneOff : PairCount
deriving DecidableEq

/-- Transcription of `executeMove` (route.ts): remove the checker from the
source (bar or point), then either bear it off or place it on the
destination point, sending a lone opposing checker to the bar first. -/
def executeMove (board : Board) (bar : PairCount) (borneOff : PairCount)
    (src : Origin) (dst : Dest) (player : Player) : ExecResult :=
  let s := playerSign player
  let afterSrc : Board × PairCount :=
    match src with
    | .bar => (board, bar.dec player)
    | .point f => (Function.update board f (board f - s), bar)
  let b1 := afterSrc.1
  let bar1 := afterSrc.2
  match dst with
  | .off => { board := b1, bar := bar1, borneOff := borneOff.inc player }
  | .point t =>
    if b1 t * s = -1 then
      let b2 := Function.update b1 t 0
      let bar2 := bar1.inc (otherPlayer player)
      { board := Function.update b2 t (b2 t + s), bar := bar2, borneOff := borneOff }
    else
      { board := Function.update b1 t (b1 t + s), bar := bar1, borneOff := borneOff }

/-- Die removal of the server's move handler (route.ts lines 352-354):
`splice` at `indexOf dieValue`; the handler only reaches it when the die is
present. -/
def serverRemoveDie (movesLeft : List ℕ) (dieValue : ℕ) : List ℕ :=
  movesLeft.eraseIdx (movesLeft.indexOf dieValue)

/-- State of the client preview: the fields `applyLocalMove` returns. -/
structure LocalState where
  board : Board
  bar : PairCount
  borneOff : PairCount
  movesLeft : List ℕ
deriving DecidableEq

/-- Transcription of `applyLocalMove` (page.tsx): the client's own copy of
move execution, plus removal of the first occurrence of the consumed die
(`indexOf` + `splice` when found, list unchanged otherwise). -/
def applyLocalMove (board : Board) (bar : PairCount) (borneOff : PairCount)
    (movesLeft : List ℕ) (src : Origin) (dst : Dest) (dieValue : ℕ)
    (player : Player) : LocalState :=
  let s := playerSign player
  let afterSrc : Board × PairCount :=
    match src with
    | .bar => (board, bar.dec player)
    | .point f => (Function.update board f (board f - s), bar)
  let b1 := afterSrc.1
  let bar1 := afterSrc.2
  let newMovesLeft :=
    if movesLeft.indexOf dieValue < movesLeft.length
    then movesLeft.eraseIdx (movesLeft.indexOf dieValue)
    else movesLeft
  match dst with
  | .off =>
    { board := b1, bar := bar1, borneOff := borneOff.inc player,
      movesLeft := newMovesLeft }
  | .point t =>
    if b1 t * s = -1 then
      let b2 := Function.update b1 t 0
      let bar2 := bar1.inc (otherPlayer player)
      { board := Function.update b2 t (b2 t + s), bar := bar2,
        borneOff := borneOff, movesLeft := newMovesLeft }
    else
      { board := Function.update b1 t (b1 t + s), bar := bar1,
        borneOff := borneOff, movesLeft := newMovesLeft }

/-- Transcription of `hasValidMoves` (route.ts): does any remaining die
admit a legal move (bar entry checked exclusively while on the bar). -/
def hasValidMoves (board : Board) (bar : PairCount) (borneOff : PairCount)
    (movesLeft : List ℕ) (player : Player) : Bool :=
  if movesLeft.isEmpty then false
  else
    let s := playerSign player
    let barCount := bar.get player
    movesLeft.any (fun die =>
      if barCount > 0 then
        let entry : Int :=
          match player with
          | .one => (die : Int) - 1
          | .two => 24 - (die : Int)
        decide (boardAt board entry * s ≥ -1)
      else
        (List.finRange 24).any (fun i =>
          if 0 < board i * s then
            let dest : Int :=
              match player with
              | .one => (i.val : Int) + die
              | .two => (i.val : Int) - die
            (decide (0 ≤ dest ∧ dest ≤ 23 ∧ boardAt board dest * s ≥ -1))
            ||
            (if canBearOff board bar player then
              match player with
              | .one =>
                decide (18 ≤ i.val ∧ 24 ≤ (i.val : Int) + die ∧
                  ((i.val : Int) + die = 24 ∨ getFurthestChecker board .one ≥ (i.val : Int)))
              | .two =>
                decide (i.val ≤ 5 ∧ (i.val : Int) - die ≤ -1 ∧
                  ((i.val : Int) - die = -1 ∨ getFurthestChecker board .two ≤ (i.val : Int)))
            else false)
          else false))

/-- Transcription of `checkWinner` (route.ts). -/
def checkWinner (borneOff : PairCount) : Option Player :=
  if borneOff.player1 = 15 then some .one
  else if borneOff.player2 = 15 then some .two
  else none

/-- Persisted game record (board, bar, borne-off, dice, moves left, turn,
winner); usernames and the room code are plumbing and carry no rule state. -/
structure Game where
  board : Board
  bar : PairCount
  borneOff : PairCount
  dice : Option (List ℕ)
  movesLeft : Option (List ℕ)
  currentTurn : Player
  winner : Option Player
deriving DecidableEq

/-- Actions of the moves endpoint; the rolled pair is an explicit input
(standing for the two `rollDice` draws). -/
inductive Action where
  | roll (d1 d2 : ℕ)
  | move (src : Origin) (dst : Dest) (dieValue : ℕ)
  | endTurn
deriving DecidableEq

/-- Rejection reasons of the moves endpoint. -/
inductive MoveError where
  | notYourTurn
  | gameOver
  | alreadyRolled
  | rollFirst
  | invalidMove
  | dieUnavailable
deriving DecidableEq, Repr

instance : DecidableEq (Except MoveError Game) := fun x y =>
  match x, y with
  | .error a, .error b =>
    if h : a = b then .isTrue (by rw [h]) else .isFalse (fun hh => h (by injection hh))
  | .ok a, .ok b =>
    if h : a = b then .isTrue (by rw [h]) else .isFalse (fun hh => h (by injection hh))
  | .error _, .ok _ => .isFalse (fun hh => Except.noConfusion hh)
  | .ok _, .error _ => .isFalse (fun hh => Except.noConfusion hh)

/-- Transcription of the `POST` handler in route.ts: guards, then the
roll / move / endTurn branches.  An error means the handler returned a
rejection without updating the persisted record. -/
def post (g : Game) (player : Player) (a : Action) : Except MoveError Game :=
  if g.currentTurn ≠ player then .error .notYourTurn
  else if g.winner ≠ none then .error .gameOver
  else
    match a with
    | .roll d1 d2 =>
      if g.dice ≠ none ∧ g.movesLeft.getD [] ≠ [] then
        .error .alreadyRolled
      else
        let dice := [d1, d2]
        let ml := getMovesFromDice dice
        if ¬hasValidMoves g.board g.bar g.borneOff ml player then
          .ok { g with dice := some dice, movesLeft := some [],
                       currentTurn := otherPlayer player }
        else
          .ok { g with dice := some dice, movesLeft := some ml }
    | .move src dst die =>
      match g.dice, g.movesLeft with
      | some _, some ml =>
        if ml.isEmpty then .error .rollFirst
        else if ¬isValidMove g.board g.bar g.borneOff src dst die player then
          .error .invalidMove
        else if ml.indexOf die = ml.length then .error .dieUnavailable
        else
          let r := executeMove g.board g.bar g.borneOff src dst player
          .ok { g with board := r.board, bar := r.bar, borneOff := r.borneOff,
                       movesLeft := some (serverRemoveDie ml die),
                       winner := checkWinner r.borneOff }
      | _, _ => .error .rollFirst
    | .endTurn =>
      .ok { g with currentTurn := otherPlayer player, dice := none,
                   movesLeft := some [] }

/-- Transcription of `getInitialBoard` (rooms route). -/
def initialBoard : Board :=
  ![2, 0, 0, 0, 0, -5, 0, -3, 0, 0, 0, 5, -5, 0, 0, 0, 3, 0, 5, 0, 0, 0, 0, -2]

/-- Fresh game record, as written by the create and reset actions of the
rooms route. -/
def freshGame (startingPlayer : Player) : Game :=
  { board := initialBoard, bar := ⟨0, 0⟩, borneOff := ⟨0, 0⟩,
    dice := none, movesLeft := none, currentTurn := startingPlayer,
    winner := none }

/-- JS `new Set(list)` iteration order: first occurrences, in order
(used by `calculateValidMoves` in page.tsx). -/
def jsSetList : List ℕ → List ℕ → List ℕ
  | [], _ => []
  | x :: xs, seen => if x ∈ seen then jsSetList xs seen else x :: jsSetList xs (x :: seen)

/-- Deduplicate keeping first occurrences: `[...new Set(movesLeft)]`. -/
def dedupFirst (l : List ℕ) : List ℕ := jsSetList l []

/-- Push a destination unless already present, as the client's
`if (!valid.includes(d)) valid.push(d)`. -/
def pushUnique (l : List Dest) (d : Dest) : List Dest :=
  if d ∈ l then l else l ++ [d]

/-- Transcription of `calculateValidMoves` (page.tsx): the destinations the
client highlights for a selected origin.  The inline bear-off and
furthest-checker closures of the TS code compute exactly `canBearOff`
(with the same bar-count guard) and `getFurthestChecker`. -/
def calculateValidMoves (src : Origin) (board : Board) (bar : PairCount)
    (borneOff : PairCount) (movesLeft : List ℕ) (player : Player) : List Dest :=
  let s := playerSign player
  let barCount := bar.get player
  if barCount > 0 ∧ src ≠ Origin.bar then []
  else
    (dedupFirst movesLeft).foldl (fun valid die =>
      match src with
      | .bar =>
        let entry : Int :=
          match player with
          | .one => (die : Int) - 1
          | .two => 24 - (die : Int)
        if h : 0 ≤ entry ∧ entry ≤ 23 then
          if boardAt board entry * s ≥ -1 then
            pushUnique valid (Dest.point ⟨entry.toNat, by omega⟩)
          else valid
        else valid
      | .point f =>
        let dest : Int :=
          match player with
          | .one => (f.val : Int) + die
          | .two => (f.val : Int) - die
        let valid1 :=
          if h : 0 ≤ dest ∧ dest ≤ 23 then
            if boardAt board dest * s ≥ -1 then
              pushUnique valid (Dest.point ⟨dest.toNat, by omega⟩)
            else valid
          else valid
        if canBearOff board bar player then
          match player with
          | .one =>
            if 18 ≤ f.val ∧ 24 ≤ dest then
              if dest = 24 ∨ getFurthestChecker board .one ≥ (f.val : Int) then
                pushUnique valid1 Dest.off
              else valid1
            else valid1
          | .two =>
            if f.val ≤ 5 ∧ dest ≤ -1 then
              if dest = -1 ∨ getFurthestChecker board .two ≤ (f.val : Int) then
                pushUnique valid1 Dest.off
              else valid1
            else valid1
        else valid1) []

/-- Die resolution of `handleMove` (page.tsx) for a bear-off destination:
the first token of MovesLeft whose destination reaches or passes the
off-track value (`dest >= 24` for Player 1, `dest <= -1` for Player 2). -/
def resolveBearOffDie (movesLeft : List ℕ) (f : Fin 24) (player : Player) :
    Option ℕ :=
  movesLeft.find? (fun die =>
    match player with
    | .one => decide (24 ≤ (f.val : Int) + die)
    | .two => decide ((f.val : Int) - die ≤ -1))

/-- One committed-but-unconfirmed client move record. -/
structure PendingMove where
  src : Origin
  dst : Dest
  dieValue : ℕ
deriving DecidableEq

/-- `applyLocalMove` repackaged on the client's local state record. -/
def applyLocalMoveS (player : Player) (st : LocalState) (m : PendingMove) :
    LocalState :=
  applyLocalMove st.board st.bar st.borneOff st.movesLeft m.src m.dst
    m.dieValue player

/-- Replay a pending-move list from a baseline, as `handleUndo`'s loop. -/
def replayMoves (player : Player) (baseline : LocalState)
    (moves : List PendingMove) : LocalState :=
  moves.foldl (applyLocalMoveS player) baseline

/-- Transcription of `handleUndo` (page.tsx): replay the authoritative
baseline through all pending entries except the last, drop the last. -/
def handleUndo (player : Player) (baseline : LocalState)
    (pending : List PendingMove) : LocalState × List PendingMove :=
  (replayMoves player baseline pending.dropLast, pending.dropLast)

/-- Positive part, used to count one player's checkers on the board. -/
def posPart (x : Int) : Int := max x 0

/-- Total number of checkers a player owns: on-board points + bar +
borne-off. -/
def countOf (board : Board) (bar : PairCount) (borneOff : PairCount)
    (p : Player) : Int :=
  (∑ i : Fin 24, posPart (playerSign p * board i)) + bar.get p + borneOff.get p

/-- Checker count read off a game record. -/
def gameCount (g : Game) (p : Player) : Int := countOf g.board g.bar g.borneOff p

/-- Dice constraint of `rollDice` (route.ts): both draws lie in 1..6. -/
def diceOK : Action → Prop
  | .roll d1 d2 => 1 ≤ d1 ∧ d1 ≤ 6 ∧ 1 ≤ d2 ∧ d2 ≤ 6
  | _ => True

/-- One observable transition of the persisted record: a successful moves
endpoint call (with dice drawn in range), or a reset from the rooms route. -/
inductive Step : Game → Game → Prop where
  | api : ∀ g player a gNew, diceOK a → post g player a = .ok gNew → Step g gNew
  | reset : ∀ g startingPlayer, Step g (freshGame startingPlayer)

/-- Game records reachable from a fresh game by endpoint calls. -/
inductive Reachable : Game → Prop where
  | init : ∀ startingPlayer, Reachable (freshGame startingPlayer)
  | step : ∀ g gNew, Reachable g → Step g gNew → Reachable gNew

/-- Spec wording: the home quadrant is indices 18..23 for Player 1 and
0..5 for Player 2. -/
abbrev homeQuadrant (p : Player) (i : Fin 24) : Prop :=
  if p = .one then 18 ≤ i.val else i.val ≤ 5

/-- Spec wording: the off-track destination `origin + dieValue` for
Player 1, `origin - dieValue` for Player 2. -/
def offTrackDest (p : Player) (f : Fin 24) (die : ℕ) : Int :=
  if p = .one then (f.val : Int) + die else (f.val : Int) - die

/-- Spec wording: the off-track value, 24 for Player 1 and -1 for
Player 2. -/
def offTrackEdge (p : Player) : Int := if p = .one then 24 else -1

/-- Spec wording: point `i` lies strictly behind the origin `f` (farther
from home than `f`). -/
abbrev strictlyBehind (p : Player) (i f : Fin 24) : Prop :=
  if p = .one then i < f else f < i

/-- Spec wording: point `i` holds at least one checker of player `p`. -/
abbrev ownChecker (board : Board) (p : Player) (i : Fin 24) : Prop :=
  0 < board i * playerSign p

/-- Bear-off legality in the words of the claim: the player can bear off
(no checkers on the bar, all on-board checkers inside the home quadrant)
and the off-track destination either hits the off-track value exactly or
overshoots it with no checker of that player strictly behind the origin. -/
abbrev bearOffLegalSpec (board : Board) (bar : PairCount) (f : Fin 24)
    (die : ℕ) (p : Player) : Prop :=
  bar.get p = 0
  ∧ (∀ i : Fin 24, ownChecker board p i → homeQuadrant p i)
  ∧ (offTrackDest p f die = offTrackEdge p
     ∨ ((if p = .one then offTrackEdge p < offTrackDest p f die
         else offTrackDest p f die < offTrackEdge p)
        ∧ ∀ i : Fin 24, strictlyBehind p i f → ¬ownChecker board p i))

/-- Board of the die-resolution scenario: Player 1 has 14 checkers on
point 18 and one on point 22, everything else empty. -/
def bearOffBugBoard : Board :=
  ![0, 0, 0, 0, 0, 0, 0, 0, 0, 0, 0, 0, 0, 0, 0, 0, 0, 0, 14, 0, 0, 0, 1, 0]

/-- Board of the overshoot scenario: all 15 Player 1 checkers on
point 22. -/
def allOn22Board : Board :=
  ![0, 0, 0, 0, 0, 0, 0, 0, 0, 0, 0, 0, 0, 0, 0, 0, 0, 0, 0, 0, 0, 0, 15, 0]

/-- Game in which Player 1 has just rolled 3-4 from the opening layout. -/
def midRollGame : Game :=
  { board := initialBoard, bar := ⟨0, 0⟩, borneOff := ⟨0, 0⟩,
    dice := some [3, 4], movesLeft := some [3, 4], currentTurn := .one,
    winner := none }

/-- Game already won by Player 1. -/
def wonGame : Game :=
  { board := initialBoard, bar := ⟨0, 0⟩, borneOff := ⟨15, 0⟩,
    dice := none, movesLeft := some [], currentTurn := .one,
    winner := some .one }

/-- Board with a single Player 2 checker on point 0 (its last checker,
the rest borne off). -/
def lastCheckerBoard : Board :=
  ![-1, 0, 0, 0, 0, 0, 0, 0, 0, 0, 0, 0, 0, 0, 0, 0, 0, 0, 0, 0, 0, 0, 0, 0]

/-- Game where Player 2 bears its last checker off while Player 1's
borne-off count already reads 15 (raw record, no winner set). -/
def doubleFifteenGame : Game :=
  { board := lastCheckerBoard, bar := ⟨0, 0⟩, borneOff := ⟨15, 14⟩,
    dice := some [1, 2], movesLeft := some [1, 2], currentTurn := .two,
    winner := none }

/-- Hit scenario of the spec: a lone Player 2 checker on point 4 and a
Player 1 checker on point 0. -/
def hitScenarioBoard : Board :=
  ![1, 0, 0, 0, -1, 0, 0, 0, 0, 0, 0, 0, 0, 0, 0, 0, 0, 0, 0, 0, 0, 0, 0, 0]

/-- Client baseline after the opening roll 3-4 (preview seed). -/
def demoBaseline : LocalState :=
  { board := initialBoard, bar := ⟨0, 0⟩, borneOff := ⟨0, 0⟩,
    movesLeft := [3, 4] }

/-- Two pending preview moves from the opening position. -/
def demoPending : List PendingMove :=
  [⟨.point 0, .point 3, 3⟩, ⟨.point 0, .point 4, 4⟩]

/-- Board with a single Player 1 checker on point 23. -/
def lastP1Board : Board :=
  ![0, 0, 0, 0, 0, 0, 0, 0, 0, 0, 0, 0, 0, 0, 0, 0, 0, 0, 0, 0, 0, 0, 0, 1]

/-- Game where Player 1 is one exact bear-off away from winning. -/
def nearWinGame : Game :=
  { board := lastP1Board, bar := ⟨0, 0⟩, borneOff := ⟨14, 0⟩,
    dice := some [1, 1], movesLeft := some [1], currentTurn := .one,
    winner := none }

/-- Record produced by Player 1's winning bear-off from `nearWinGame`. -/
def nearWinGameAfter : Game :=
  { board := Function.update lastP1Board 23 0, bar := ⟨0, 0⟩,
    borneOff := ⟨15, 0⟩, dice := some [1, 1], movesLeft := some [],
    currentTurn := .one, winner := some .one }

end Backgammon

namespace Backgammon

/-- C1: the client prediction layer's `applyLocalMove` and the server's
`executeMove` produce identical board, bar and borne-off values on every
input, and when the consumed die is present in MovesLeft the client
removes exactly the token the server's move handler removes (the first
occurrence of the die value). -/
theorem C1_local_engine_matches_server (board : Board) (bar borneOff : PairCount)
    (ml : List ℕ) (src : Origin) (dst : Dest) (die : ℕ) (p : Player) :
    ((applyLocalMove board bar borneOff ml src dst die p).board
        = (executeMove board bar borneOff src dst p).board
      ∧ (applyLocalMove board bar borneOff ml src dst die p).bar
        = (executeMove board bar borneOff src dst p).bar
      ∧ (applyLocalMove board bar borneOff ml src dst die p).borneOff
        = (executeMove board bar borneOff src dst p).borneOff)
    ∧ (die ∈ ml →
        (applyLocalMove board bar borneOff ml src dst die p).movesLeft
          = serverRemoveDie ml die) := by
  constructor
  · cases src <;> cases dst <;>
      simp only [applyLocalMove, executeMove] <;> (try split) <;> simp
  · intro hmem
    have hlt : ml.indexOf die < ml.length := List.indexOf_lt_length.mpr hmem
    cases src <;> cases dst <;>
      simp only [applyLocalMove, serverRemoveDie, if_pos hlt] <;> split <;> rfl

/-- Witness for C1 at a concrete hit move with die 4 available. -/
theorem C1_local_engine_matches_server_witness :
    ((applyLocalMove hitScenarioBoard ⟨0, 0⟩ ⟨0, 0⟩ [3, 4] (.point 0) (.point 4) 4 .one).board
        = (executeMove hitScenarioBoard ⟨0, 0⟩ ⟨0, 0⟩ (.point 0) (.point 4) .one).board
      ∧ (applyLocalMove hitScenarioBoard ⟨0, 0⟩ ⟨0, 0⟩ [3, 4] (.point 0) (.point 4) 4 .one).bar
        = (executeMove hitScenarioBoard ⟨0, 0⟩ ⟨0, 0⟩ (.point 0) (.point 4) .one).bar
      ∧ (applyLocalMove hitScenarioBoard ⟨0, 0⟩ ⟨0, 0⟩ [3, 4] (.point 0) (.point 4) 4 .one).borneOff
        = (executeMove hitScenarioBoard ⟨0, 0⟩ ⟨0, 0⟩ (.point 0) (.point 4) .one).borneOff)
    ∧ ((4 : ℕ) ∈ [3, 4] →
        (applyLocalMove hitScenarioBoard ⟨0, 0⟩ ⟨0, 0⟩ [3, 4] (.point 0) (.point 4) 4 .one).movesLeft
          = serverRemoveDie [3, 4] 4) :=
  C1_local_engine_matches_server hitScenarioBoard ⟨0, 0⟩ ⟨0, 0⟩ [3, 4]
    (.point 0) (.point 4) 4 .one

/-- C2: evaluation of the client pipeline at the failing input.  With
MovesLeft `[6, 2]` and Player 1's last two checkers on 18 and 22, the
client highlights a bear-off from 22 (die 2 makes it legal), but
`handleMove`'s die resolution records the first size-matching token, 6,
which `isValidMove` rejects (the furthest checker, 18, is strictly behind
22) while die 2 is accepted. -/
theorem C2_bearoff_die_resolution_bug :
    resolveBearOffDie [6, 2] (22 : Fin 24) .one = some 6
    ∧ Dest.off ∈ calculateValidMoves (Origin.point 22) bearOffBugBoard
        ⟨0, 0⟩ ⟨0, 0⟩ [6, 2] .one
    ∧ isValidMove bearOffBugBoard ⟨0, 0⟩ ⟨0, 0⟩ (.point 22) .off 6 .one = false
    ∧ isValidMove bearOffBugBoard ⟨0, 0⟩ ⟨0, 0⟩ (.point 22) .off 2 .one = true := by
  decide

/-- C3 counterexample: from the opening layout with roll 3-4 both die
tokens still admit legal moves, yet the server's endTurn branch succeeds
and flips the turn instead of rejecting the request. -/
theorem C3_endTurn_not_gated_cex :
    hasValidMoves midRollGame.board midRollGame.bar midRollGame.borneOff
        [3, 4] .one = true
    ∧ midRollGame.movesLeft = some [3, 4]
    ∧ midRollGame.currentTurn = .one
    ∧ post midRollGame .one .endTurn
        = .ok { midRollGame with currentTurn := .two, dice := none,
                                 movesLeft := some [] } := by
  decide

/-- C3 amended: the server's endTurn action succeeds unconditionally for
the player whose turn it is while no winner is set: it clears Dice,
empties MovesLeft and flips Turn, with no check that MovesLeft is empty or
that no legal move remains (that gate exists only in the client UI). -/
theorem C3_endTurn_unconditional (g : Game) (p : Player)
    (hturn : g.currentTurn = p) (hwin : g.winner = none) :
    post g p .endTurn
      = .ok { g with currentTurn := otherPlayer p, dice := none,
                     movesLeft := some [] } := by
  simp [post, hturn, hwin]

/-- Witness for C3's amended theorem at the concrete mid-roll game. -/
theorem C3_endTurn_unconditional_witness :
    post midRollGame .one .endTurn
      = .ok { midRollGame with currentTurn := otherPlayer .one, dice := none,
                               movesLeft := some [] } :=
  C3_endTurn_unconditional midRollGame .one rfl rfl

/-- C5: a roll request by the player on turn with no unconsumed dice
expands the pair ([d1,d2], four copies on doubles); if no legal move
exists for the expanded tokens the handler records the dice, empties
MovesLeft and flips Turn, leaving board, bar and borne-off unchanged;
otherwise it records the dice and the expanded tokens and keeps the
turn. -/
theorem C5_roll_resolution (g : Game) (p : Player) (d1 d2 : ℕ)
    (hturn : g.currentTurn = p) (hwin : g.winner = none)
    (hfresh : g.dice = none ∨ g.movesLeft = none ∨ g.movesLeft = some []) :
    getMovesFromDice [d1, d2]
        = (if d1 = d2 then [d1, d1, d1, d1] else [d1, d2])
    ∧ (hasValidMoves g.board g.bar g.borneOff (getMovesFromDice [d1, d2]) p
          = false →
        post g p (.roll d1 d2)
          = .ok { g with dice := some [d1, d2], movesLeft := some [],
                         currentTurn := otherPlayer p })
    ∧ (hasValidMoves g.board g.bar g.borneOff (getMovesFromDice [d1, d2]) p
          = true →
        post g p (.roll d1 d2)
          = .ok { g with dice := some [d1, d2],
                         movesLeft := some (getMovesFromDice [d1, d2]) }) := by
  have hguard : ¬(g.dice ≠ none ∧ g.movesLeft.getD [] ≠ []) := by
    rcases hfresh with h | h | h <;> simp [h]
  refine ⟨rfl, ?_, ?_⟩ <;> intro hmove <;>
    simp [post, hturn, hwin, hguard, hmove]

/-- Witness for C5 at the fresh game and roll 3-4 (which has moves). -/
theorem C5_roll_resolution_witness :
    (getMovesFromDice [3, 4]
        = (if 3 = 4 then [3, 3, 3, 3] else [3, 4])
      ∧ (hasValidMoves (freshGame .one).board (freshGame .one).bar
            (freshGame .one).borneOff (getMovesFromDice [3, 4]) .one = false →
          post (freshGame .one) .one (.roll 3 4)
            = .ok { (freshGame .one) with
                    dice := some [3, 4], movesLeft := some [],
                    currentTurn := otherPlayer .one })
      ∧ (hasValidMoves (freshGame .one).board (freshGame .one).bar
            (freshGame .one).borneOff (getMovesFromDice [3, 4]) .one = true →
          post (freshGame .one) .one (.roll 3 4)
            = .ok { (freshGame .one) with
                    dice := some [3, 4],
                    movesLeft := some (getMovesFromDice [3, 4]) })) :=
  C5_roll_resolution (freshGame .one) .one 3 4 rfl rfl (Or.inl rfl)

/-- C8: undo replays the baseline through all pending entries but the
last and drops the last; applying that dropped move to the post-undo
state reproduces the full replay (the pre-undo local state). -/
theorem C8_undo_roundtrip (p : Player) (baseline : LocalState)
    (pending : List PendingMove) (h : pending ≠ []) :
    handleUndo p baseline pending
        = (replayMoves p baseline pending.dropLast, pending.dropLast)
    ∧ applyLocalMoveS p (replayMoves p baseline pending.dropLast)
        (pending.getLast h)
        = replayMoves p baseline pending := by
  refine ⟨rfl, ?_⟩
  conv_rhs =>
    rw [show pending = pending.dropLast ++ [pending.getLast h] from
      (List.dropLast_append_getLast h).symm]
  simp [replayMoves, List.foldl_append]

/-- Witness for C8 at a two-move pending stack from the opening roll. -/
theorem C8_undo_roundtrip_witness :
    handleUndo .one demoBaseline demoPending
        = (replayMoves .one demoBaseline demoPending.dropLast,
           demoPending.dropLast)
    ∧ applyLocalMoveS .one (replayMoves .one demoBaseline demoPending.dropLast)
        (demoPending.getLast (by decide))
        = replayMoves .one demoBaseline demoPending :=
  C8_undo_roundtrip .one demoBaseline demoPending (by decide)

/-- Inversion of a successful move call: the move was validated, and the
record was updated with `executeMove`'s result, the die removal and the
winner check. -/
theorem post_move_ok (g : Game) (p : Player) (src : Origin) (dst : Dest)
    (die : ℕ) (g2 : Game) (h : post g p (.move src dst die) = .ok g2) :
    isValidMove g.board g.bar g.borneOff src dst die p = true
    ∧ g2.board = (executeMove g.board g.bar g.borneOff src dst p).board
    ∧ g2.bar = (executeMove g.board g.bar g.borneOff src dst p).bar
    ∧ g2.borneOff = (executeMove g.board g.bar g.borneOff src dst p).borneOff
    ∧ g2.winner
        = checkWinner (executeMove g.board g.bar g.borneOff src dst p).borneOff := by
  unfold post at h
  dsimp only at h
  split at h
  · exact Except.noConfusion h
  split at h
  · exact Except.noConfusion h
  split at h <;> try exact Except.noConfusion h
  split at h
  · exact Except.noConfusion h
  split at h
  · exact Except.noConfusion h
  rename_i hvalid
  split at h
  · exact Except.noConfusion h
  injection h with h2
  subst h2
  exact ⟨by simpa using hvalid, rfl, rfl, rfl, rfl⟩

/-- A successful endpoint call either executes a validated move, or (roll
and endTurn) leaves board, bar and borne-off untouched. -/
theorem post_ok_material (g : Game) (p : Player) (a : Action) (g2 : Game)
    (h : post g p a = .ok g2) :
    (∃ src dst die,
        isValidMove g.board g.bar g.borneOff src dst die p = true
        ∧ g2.board = (executeMove g.board g.bar g.borneOff src dst p).board
        ∧ g2.bar = (executeMove g.board g.bar g.borneOff src dst p).bar
        ∧ g2.borneOff = (executeMove g.board g.bar g.borneOff src dst p).borneOff)
    ∨ (g2.board = g.board ∧ g2.bar = g.bar ∧ g2.borneOff = g.borneOff) := by
  cases a with
  | move src dst die =>
    obtain ⟨hv, hb, hbar, hbo, -⟩ := post_move_ok g p src dst die g2 h
    exact Or.inl ⟨src, dst, die, hv, hb, hbar, hbo⟩
  | roll d1 d2 =>
    right
    unfold post at h
    dsimp only at h
    split at h
    · exact Except.noConfusion h
    split at h
    · exact Except.noConfusion h
    split at h
    · exact Except.noConfusion h
    split at h <;> (injection h with h2; subst h2; exact ⟨rfl, rfl, rfl⟩)
  | endTurn =>
    right
    unfold post at h
    dsimp only at h
    split at h
    · exact Except.noConfusion h
    split at h
    · exact Except.noConfusion h
    injection h with h2
    subst h2
    exact ⟨rfl, rfl, rfl⟩

/-- Normal form of the roll branch of the `POST` handler for the player
on turn while no winner is set. -/
theorem post_roll_eq (g : Game) (d1 d2 : ℕ) (hwin : g.winner = none) :
    post g g.currentTurn (.roll d1 d2)
      = if g.dice ≠ none ∧ g.movesLeft.getD [] ≠ [] then
          .error .alreadyRolled
        else if ¬hasValidMoves g.board g.bar g.borneOff
            (getMovesFromDice [d1, d2]) g.currentTurn then
          .ok { g with dice := some [d1, d2], movesLeft := some [],
                       currentTurn := otherPlayer g.currentTurn }
        else
          .ok { g with dice := some [d1, d2],
                       movesLeft := some (getMovesFromDice [d1, d2]) } := by
  simp [post, hwin]

/-- C10: the roll guard rejects as already-rolled exactly when Dice is
non-null and MovesLeft is a non-empty list; hence after consuming every
die token (MovesLeft = []) the same player's fresh roll succeeds, records
the new dice, and — whenever the new tokens admit a move — installs them
as MovesLeft with the turn still on that player. -/
theorem C10_roll_guard (g : Game) (p : Player) (d1 d2 : ℕ)
    (hturn : g.currentTurn = p) (hwin : g.winner = none) :
    (post g p (.roll d1 d2) = .error .alreadyRolled
      ↔ g.dice ≠ none ∧ ∃ l, g.movesLeft = some l ∧ l ≠ [])
    ∧ (g.movesLeft = some [] →
        ∃ g2, post g p (.roll d1 d2) = .ok g2 ∧ g2.dice = some [d1, d2]
          ∧ (hasValidMoves g.board g.bar g.borneOff
                (getMovesFromDice [d1, d2]) p = true →
              g2.movesLeft = some (getMovesFromDice [d1, d2])
                ∧ g2.currentTurn = p)) := by
  subst hturn
  have hpost := post_roll_eq g d1 d2 hwin
  constructor
  · rw [hpost]
    by_cases hguard : g.dice ≠ none ∧ g.movesLeft.getD [] ≠ []
    · rw [if_pos hguard]
      constructor
      · intro _
        refine ⟨hguard.1, ?_⟩
        cases hml : g.movesLeft with
        | none => rw [hml] at hguard; simp at hguard
        | some l =>
          have h2 := hguard.2
          rw [hml] at h2
          exact ⟨l, rfl, by simpa using h2⟩
      · intro _; rfl
    · rw [if_neg hguard]
      constructor
      · intro hh
        split at hh <;> exact Except.noConfusion hh
      · rintro ⟨hd, l, hl, hne⟩
        exact absurd ⟨hd, by simp [hl, hne]⟩ hguard
  · intro hml
    have hguard : ¬(g.dice ≠ none ∧ g.movesLeft.getD [] ≠ []) := by simp [hml]
    rw [hpost, if_neg hguard]
    by_cases hmove : hasValidMoves g.board g.bar g.borneOff
        (getMovesFromDice [d1, d2]) g.currentTurn = true
    · rw [if_neg (by simp [hmove])]
      exact ⟨_, rfl, rfl, fun _ => ⟨rfl, rfl⟩⟩
    · rw [if_pos (by simpa using hmove)]
      exact ⟨_, rfl, rfl, fun hh => absurd hh hmove⟩

/-- Witness for C10 at a game whose dice are spent but turn not ended. -/
theorem C10_roll_guard_witness :
    (post { midRollGame with movesLeft := some [] } .one (.roll 2 5)
        = .error .alreadyRolled
      ↔ { midRollGame with movesLeft := some [] }.dice ≠ none
        ∧ ∃ l, { midRollGame with movesLeft := some [] }.movesLeft = some l
            ∧ l ≠ [])
    ∧ ({ midRollGame with movesLeft := some [] }.movesLeft = some [] →
        ∃ g2, post { midRollGame with movesLeft := some [] } .one (.roll 2 5)
              = .ok g2
          ∧ g2.dice = some [2, 5]
          ∧ (hasValidMoves { midRollGame with movesLeft := some [] }.board
                { midRollGame with movesLeft := some [] }.bar
                { midRollGame with movesLeft := some [] }.borneOff
                (getMovesFromDice [2, 5]) .one = true →
              g2.movesLeft = some (getMovesFromDice [2, 5])
                ∧ g2.currentTurn = .one)) :=
  C10_roll_guard { midRollGame with movesLeft := some [] } .one 2 5 rfl rfl

/-- Ascending scan order of the point indices. -/
theorem finRange_pairwise_le :
    (List.finRange 24).Pairwise (fun a b : Fin 24 => a.val ≤ b.val) := by
  decide

/-- Descending scan order of the reversed point indices. -/
theorem finRange_reverse_pairwise :
    ((List.finRange 24).reverse).Pairwise (fun a b : Fin 24 => b.val ≤ a.val) := by
  decide

/-- On an ascending list, the first hit is at most any member hit. -/
theorem findFirstIdx_le (q : Fin 24 → Bool) :
    ∀ (l : List (Fin 24)), l.Pairwise (fun a b : Fin 24 => a.val ≤ b.val) →
      ∀ i, i ∈ l → q i = true → findFirstIdx q l ≤ (i.val : Int) := by
  intro l
  induction l with
  | nil => intro _ i hi; cases hi
  | cons a as ih =>
    intro hpw i hi hq
    rw [List.pairwise_cons] at hpw
    unfold findFirstIdx
    by_cases ha : q a = true
    · rw [if_pos ha]
      rcases List.mem_cons.mp hi with rfl | hmem
      · exact le_refl _
      · exact_mod_cast hpw.1 i hmem
    · rw [if_neg ha]
      rcases List.mem_cons.mp hi with rfl | hmem
      · exact absurd hq ha
      · exact ih hpw.2 i hmem hq

/-- If every member below the bound misses, the first hit clears the
bound (some member must hit). -/
theorem le_findFirstIdx (q : Fin 24 → Bool) (c : Int) :
    ∀ (l : List (Fin 24)), (∀ i, i ∈ l → (i.val : Int) < c → q i = false) →
      (∃ i, i ∈ l ∧ q i = true) → c ≤ findFirstIdx q l := by
  intro l
  induction l with
  | nil => rintro _ ⟨i, hi, -⟩; cases hi
  | cons a as ih =>
    rintro hsmall ⟨i, hi, hq⟩
    unfold findFirstIdx
    by_cases ha : q a = true
    · rw [if_pos ha]
      by_contra hlt
      push_neg at hlt
      exact absurd (hsmall a (List.mem_cons_self a as) hlt) (by simp [ha])
    · rw [if_neg ha]
      rcases List.mem_cons.mp hi with rfl | hmem
      · exact absurd hq ha
      · exact ih (fun j hj hjc => hsmall j (List.mem_cons_of_mem a hj) hjc)
          ⟨i, hmem, hq⟩

/-- On a descending list, the first hit is at least any member hit. -/
theorem findFirstIdx_ge (q : Fin 24 → Bool) :
    ∀ (l : List (Fin 24)), l.Pairwise (fun a b : Fin 24 => b.val ≤ a.val) →
      ∀ i, i ∈ l → q i = true → (i.val : Int) ≤ findFirstIdx q l := by
  intro l
  induction l with
  | nil => intro _ i hi; cases hi
  | cons a as ih =>
    intro hpw i hi hq
    rw [List.pairwise_cons] at hpw
    unfold findFirstIdx
    by_cases ha : q a = true
    · rw [if_pos ha]
      rcases List.mem_cons.mp hi with rfl | hmem
      · exact le_refl _
      · exact_mod_cast hpw.1 i hmem
    · rw [if_neg ha]
      rcases List.mem_cons.mp hi with rfl | hmem
      · exact absurd hq ha
      · exact ih hpw.2 i hmem hq

/-- If every member above the bound misses, the first hit stays at or
under the bound (some member must hit). -/
theorem findFirstIdx_le_of_none_gt (q : Fin 24 → Bool) (c : Int) :
    ∀ (l : List (Fin 24)), (∀ i, i ∈ l → c < (i.val : Int) → q i = false) →
      (∃ i, i ∈ l ∧ q i = true) → findFirstIdx q l ≤ c := by
  intro l
  induction l with
  | nil => rintro _ ⟨i, hi, -⟩; cases hi
  | cons a as ih =>
    rintro hbig ⟨i, hi, hq⟩
    unfold findFirstIdx
    by_cases ha : q a = true
    · rw [if_pos ha]
      by_contra hlt
      push_neg at hlt
      exact absurd (hbig a (List.mem_cons_self a as) hlt) (by simp [ha])
    · rw [if_neg ha]
      rcases List.mem_cons.mp hi with rfl | hmem
      · exact absurd hq ha
      · exact ih (fun j hj hjc => hbig j (List.mem_cons_of_mem a hj) hjc)
          ⟨i, hmem, hq⟩

/-- Player 1's furthest checker is at or past `f` iff no Player 1 checker
sits strictly below `f` (given `f` itself is occupied). -/
theorem furthest_one_le_iff (board : Board) (f : Fin 24) (hf : 0 < board f) :
    (f.val : Int) ≤ getFurthestChecker board .one
      ↔ ∀ i : Fin 24, i < f → board i ≤ 0 := by
  simp only [getFurthestChecker]
  constructor
  · intro hge i hif
    by_contra hpos
    push_neg at hpos
    have hle := findFirstIdx_le (fun j => decide (0 < board j)) (List.finRange 24)
      finRange_pairwise_le i (List.mem_finRange i) (decide_eq_true hpos)
    have hc : (i.val : Int) < (f.val : Int) := by exact_mod_cast hif
    omega
  · intro hall
    apply le_findFirstIdx
    · intro j _ hjc
      apply decide_eq_false
      simp only [not_lt]
      exact hall j (Fin.lt_def.mpr (by exact_mod_cast hjc))
    · exact ⟨f, List.mem_finRange f, decide_eq_true hf⟩

/-- Player 2's furthest checker is at or below `f` iff no Player 2
checker sits strictly above `f` (given `f` itself is occupied). -/
theorem furthest_two_le_iff (board : Board) (f : Fin 24) (hf : board f < 0) :
    getFurthestChecker board .two ≤ (f.val : Int)
      ↔ ∀ i : Fin 24, f < i → 0 ≤ board i := by
  simp only [getFurthestChecker]
  constructor
  · intro hle i hif
    by_contra hneg
    push_neg at hneg
    have hge := findFirstIdx_ge (fun j => decide (board j < 0))
      ((List.finRange 24).reverse) finRange_reverse_pairwise i
      (List.mem_reverse.mpr (List.mem_finRange i)) (decide_eq_true hneg)
    have hc : (f.val : Int) < (i.val : Int) := by exact_mod_cast hif
    omega
  · intro hall
    apply findFirstIdx_le_of_none_gt
    · intro j _ hjc
      apply decide_eq_false
      simp only [not_lt]
      exact hall j (Fin.lt_def.mpr (by exact_mod_cast hjc))
    · exact ⟨f, List.mem_reverse.mpr (List.mem_finRange f), decide_eq_true hf⟩

/-- Unfolding of `homeQuadrant` for Player 1. -/
theorem homeQuadrant_one (i : Fin 24) : homeQuadrant .one i ↔ 18 ≤ i.val := by
  simp [homeQuadrant]

/-- Unfolding of `homeQuadrant` for Player 2. -/
theorem homeQuadrant_two (i : Fin 24) : homeQuadrant .two i ↔ i.val ≤ 5 := by
  simp [homeQuadrant]

/-- Unfolding of `strictlyBehind` for Player 1. -/
theorem strictlyBehind_one (i f : Fin 24) : strictlyBehind .one i f ↔ i < f := by
  simp [strictlyBehind]

/-- Unfolding of `strictlyBehind` for Player 2. -/
theorem strictlyBehind_two (i f : Fin 24) : strictlyBehind .two i f ↔ f < i := by
  simp [strictlyBehind]

/-- Unfolding of `ownChecker` for Player 1. -/
theorem ownChecker_one (board : Board) (i : Fin 24) :
    ownChecker board .one i ↔ 0 < board i := by
  simp [ownChecker, playerSign]

/-- Unfolding of `ownChecker` for Player 2. -/
theorem ownChecker_two (board : Board) (i : Fin 24) :
    ownChecker board .two i ↔ board i < 0 := by
  show 0 < board i * (-1) ↔ board i < 0
  omega

/-- Unfolding of `offTrackDest` for Player 1. -/
theorem offTrackDest_one (f : Fin 24) (die : ℕ) :
    offTrackDest .one f die = (f.val : Int) + die := by
  simp [offTrackDest]

/-- Unfolding of `offTrackDest` for Player 2. -/
theorem offTrackDest_two (f : Fin 24) (die : ℕ) :
    offTrackDest .two f die = (f.val : Int) - die := by
  simp [offTrackDest]

/-- Unfolding of `offTrackEdge` for Player 1. -/
theorem offTrackEdge_one : offTrackEdge .one = 24 := by
  simp [offTrackEdge]

/-- Unfolding of `offTrackEdge` for Player 2. -/
theorem offTrackEdge_two : offTrackEdge .two = -1 := by
  simp [offTrackEdge]

/-- Player 1's `canBearOff` (bar guard already passed) says exactly that
every Player 1 checker sits in the home quadrant. -/
theorem canBearOff_one_iff (board : Board) (bar : PairCount)
    (hbc : ¬bar.get .one > 0) :
    canBearOff board bar .one = true
      ↔ ∀ i : Fin 24, ownChecker board .one i → homeQuadrant .one i := by
  unfold canBearOff
  rw [if_neg hbc]
  dsimp only
  rw [decide_eq_true_iff]
  constructor
  · intro h i hoi
    rw [homeQuadrant_one]
    rw [ownChecker_one] at hoi
    by_contra hni
    have hle := h i (by omega)
    omega
  · intro h i hi
    by_contra hpos
    push_neg at hpos
    have hh := h i ((ownChecker_one board i).mpr hpos)
    rw [homeQuadrant_one] at hh
    omega

/-- Player 2's `canBearOff` (bar guard already passed) says exactly that
every Player 2 checker sits in the home quadrant. -/
theorem canBearOff_two_iff (board : Board) (bar : PairCount)
    (hbc : ¬bar.get .two > 0) :
    canBearOff board bar .two = true
      ↔ ∀ i : Fin 24, ownChecker board .two i → homeQuadrant .two i := by
  unfold canBearOff
  rw [if_neg hbc]
  dsimp only
  rw [decide_eq_true_iff]
  constructor
  · intro h i hoi
    rw [homeQuadrant_two]
    rw [ownChecker_two] at hoi
    by_contra hni
    have hle := h i (by omega)
    omega
  · intro h i hi
    by_contra hneg
    push_neg at hneg
    have hh := h i ((ownChecker_two board i).mpr (by omega))
    rw [homeQuadrant_two] at hh
    omega

/-- C4 counterexample: all 15 Player 1 checkers on point 22, bearing off
from the empty point 20 with die 5.  The claim's condition holds (can bear
off, overshoot, no checker strictly behind 20) yet `isValidMove` rejects,
because the origin holds no checker of the mover — a conjunct the claim
omits. -/
theorem C4_bearoff_claim_cex :
    bearOffLegalSpec allOn22Board ⟨0, 0⟩ (20 : Fin 24) 5 .one
    ∧ isValidMove allOn22Board ⟨0, 0⟩ ⟨0, 0⟩ (.point 20) .off 5 .one = false := by
  decide

/-- C4 amended: a move to 'off' is judged legal by `isValidMove` iff the
origin holds at least one of the mover's checkers, the player can bear
off (no bar checkers, all checkers in the home quadrant), and the
off-track destination either hits the off-track value exactly or
overshoots it with no checker of the mover strictly behind the origin. -/
theorem C4_bearoff_legal_iff (board : Board) (bar borneOff : PairCount)
    (f : Fin 24) (die : ℕ) (p : Player) (hbar : 0 ≤ bar.get p) :
    isValidMove board bar borneOff (.point f) .off die p = true
      ↔ ownChecker board p f ∧ bearOffLegalSpec board bar f die p := by
  by_cases hbc : bar.get p > 0
  · have hlhs : isValidMove board bar borneOff (.point f) .off die p = false := by
      unfold isValidMove
      rw [if_pos ⟨hbc, by simp⟩]
    rw [hlhs]
    constructor
    · intro h; exact Bool.noConfusion h
    · rintro ⟨-, hb0, -⟩
      exact absurd hb0 (by omega)
  · by_cases hown : 0 < board f * playerSign p
    · have hb0 : bar.get p = 0 := le_antisymm (not_lt.mp hbc) hbar
      cases p with
      | one =>
        have hownv : 0 < board f := by
          simpa only [playerSign, mul_one] using hown
        have hlhs : isValidMove board bar borneOff (.point f) .off die .one
            = (if canBearOff board bar .one = true then
                 (if (f.val : Int) + die = 24 then true
                  else if (f.val : Int) + die > 24 then
                    decide (getFurthestChecker board .one ≥ (f.val : Int))
                  else false)
               else false) := by
          unfold isValidMove
          rw [if_neg (by simp [hbc])]
          dsimp only
          rw [if_neg (not_le.mpr hown)]
          cases canBearOff board bar .one <;> simp
        rw [hlhs]
        by_cases hcb : canBearOff board bar .one = true
        · rw [if_pos hcb]
          have hhome : ∀ i : Fin 24, ownChecker board .one i → homeQuadrant .one i :=
            (canBearOff_one_iff board bar hbc).mp hcb
          by_cases h24 : (f.val : Int) + die = 24
          · rw [if_pos h24]
            constructor
            · intro _
              refine ⟨hown, hb0, hhome, Or.inl ?_⟩
              rw [offTrackDest_one, offTrackEdge_one]
              exact h24
            · intro _; rfl
          · rw [if_neg h24]
            by_cases hgt : (f.val : Int) + die > 24
            · rw [if_pos hgt]
              rw [decide_eq_true_iff, ge_iff_le,
                furthest_one_le_iff board f hownv]
              constructor
              · intro hall
                refine ⟨hown, hb0, hhome, Or.inr ⟨?_, ?_⟩⟩
                · show offTrackEdge .one < offTrackDest .one f die
                  rw [offTrackDest_one, offTrackEdge_one]
                  omega
                · intro i hbi
                  rw [strictlyBehind_one] at hbi
                  have hle := hall i hbi
                  rw [ownChecker_one]
                  omega
              · rintro ⟨-, -, -, htrack⟩
                rcases htrack with h24x | ⟨-, hnone⟩
                · rw [offTrackDest_one, offTrackEdge_one] at h24x
                  exact absurd h24x h24
                · intro i hif
                  have hni := hnone i (by rw [strictlyBehind_one]; exact hif)
                  rw [ownChecker_one] at hni
                  omega
            · rw [if_neg hgt]
              constructor
              · intro h; exact Bool.noConfusion h
              · rintro ⟨-, -, -, htrack⟩
                rcases htrack with h24x | ⟨hov, -⟩
                · rw [offTrackDest_one, offTrackEdge_one] at h24x
                  exact absurd h24x h24
                · have hov2 : offTrackEdge .one < offTrackDest .one f die := hov
                  rw [offTrackDest_one, offTrackEdge_one] at hov2
                  exact absurd hov2 hgt
        · rw [if_neg hcb]
          constructor
          · intro h; exact Bool.noConfusion h
          · rintro ⟨-, -, hhome, -⟩
            exact absurd ((canBearOff_one_iff board bar hbc).mpr hhome) hcb
      | two =>
        have hownv : board f < 0 := by
          simp only [playerSign] at hown
          omega
        have hlhs : isValidMove board bar borneOff (.point f) .off die .two
            = (if canBearOff board bar .two = true then
                 (if (f.val : Int) - die = -1 then true
                  else if (f.val : Int) - die < -1 then
                    decide (getFurthestChecker board .two ≤ (f.val : Int))
                  else false)
               else false) := by
          unfold isValidMove
          rw [if_neg (by simp [hbc])]
          dsimp only
          rw [if_neg (not_le.mpr hown)]
          cases canBearOff board bar .two <;> simp
        rw [hlhs]
        by_cases hcb : canBearOff board bar .two = true
        · rw [if_pos hcb]
          have hhome : ∀ i : Fin 24, ownChecker board .two i → homeQuadrant .two i :=
            (canBearOff_two_iff board bar hbc).mp hcb
          by_cases h24 : (f.val : Int) - die = -1
          · rw [if_pos h24]
            constructor
            · intro _
              refine ⟨hown, hb0, hhome, Or.inl ?_⟩
              rw [offTrackDest_two, offTrackEdge_two]
              exact h24
            · intro _; rfl
          · rw [if_neg h24]
            by_cases hgt : (f.val : Int) - die < -1
            · rw [if_pos hgt]
              rw [decide_eq_true_iff, furthest_two_le_iff board f hownv]
              constructor
              · intro hall
                refine ⟨hown, hb0, hhome, Or.inr ⟨?_, ?_⟩⟩
                · show offTrackDest .two f die < offTrackEdge .two
                  rw [offTrackDest_two, offTrackEdge_two]
                  omega
                · intro i hbi
                  rw [strictlyBehind_two] at hbi
                  have hge := hall i hbi
                  rw [ownChecker_two]
                  omega
              · rintro ⟨-, -, -, htrack⟩
                rcases htrack with h24x | ⟨-, hnone⟩
                · rw [offTrackDest_two, offTrackEdge_two] at h24x
                  exact absurd h24x h24
                · intro i hif
                  have hni := hnone i (by rw [strictlyBehind_two]; exact hif)
                  rw [ownChecker_two] at hni
                  omega
            · rw [if_neg hgt]
              constructor
              · intro h; exact Bool.noConfusion h
              · rintro ⟨-, -, -, htrack⟩
                rcases htrack with h24x | ⟨hov, -⟩
                · rw [offTrackDest_two, offTrackEdge_two] at h24x
                  exact absurd h24x h24
                · have hov2 : offTrackDest .two f die < offTrackEdge .two := hov
                  rw [offTrackDest_two, offTrackEdge_two] at hov2
                  exact absurd hov2 hgt
        · rw [if_neg hcb]
          constructor
          · intro h; exact Bool.noConfusion h
          · rintro ⟨-, -, hhome, -⟩
            exact absurd ((canBearOff_two_iff board bar hbc).mpr hhome) hcb
    · have hlhs : isValidMove board bar borneOff (.point f) .off die p = false := by
        unfold isValidMove
        rw [if_neg (by simp [hbc])]
        dsimp only
        rw [if_pos (not_lt.mp hown)]
      rw [hlhs]
      constructor
      · intro h; exact Bool.noConfusion h
      · rintro ⟨ho, -⟩
        exact absurd ho hown

/-- Witness for C4's amended theorem: the exact bear-off 22 → off with
die 2 when all Player 1 checkers sit on point 22. -/
theorem C4_bearoff_legal_iff_witness :
    isValidMove allOn22Board ⟨0, 0⟩ ⟨0, 0⟩ (.point 22) .off 2 .one = true
      ↔ ownChecker allOn22Board .one (22 : Fin 24)
        ∧ bearOffLegalSpec allOn22Board ⟨0, 0⟩ (22 : Fin 24) 2 .one :=
  C4_bearoff_legal_iff allOn22Board ⟨0, 0⟩ ⟨0, 0⟩ 22 2 .one (by decide)

/-- Board read at a point's own index is the plain board value. -/
theorem boardAt_val (board : Board) (i : Fin 24) :
    boardAt board (i.val : Int) = board i := by
  unfold boardAt
  rw [dif_pos ⟨Int.natCast_nonneg _, by exact_mod_cast i.isLt⟩]
  congr 1

/-- Updating one point shifts the positive-part sum by the value change. -/
theorem sum_posPart_update (b : Board) (t : Fin 24) (v : Int) :
    (∑ i : Fin 24, posPart (Function.update b t v i))
      = (∑ i : Fin 24, posPart (b i)) + (posPart v - posPart (b t)) := by
  have h1 : (fun i => posPart (Function.update b t v i))
      = Function.update (fun j => posPart (b j)) t (posPart v) := by
    funext i
    by_cases hi : i = t
    · subst hi; simp
    · simp [Function.update_noteq hi]
  calc (∑ i : Fin 24, posPart (Function.update b t v i))
      = ∑ i : Fin 24, Function.update (fun j => posPart (b j)) t (posPart v) i := by
        rw [h1]
    _ = posPart v + ∑ i in Finset.univ \ {t}, posPart (b i) :=
        Finset.sum_update_of_mem (Finset.mem_univ t) _ _
    _ = (∑ i : Fin 24, posPart (b i)) + (posPart v - posPart (b t)) := by
        rw [Finset.sum_eq_sum_diff_singleton_add (Finset.mem_univ t)
          (fun j => posPart (b j))]
        ring

/-- Negative-side version of `sum_posPart_update`. -/
theorem sum_posPart_neg_update (b : Board) (t : Fin 24) (v : Int) :
    (∑ i : Fin 24, posPart (-Function.update b t v i))
      = (∑ i : Fin 24, posPart (-b i)) + (posPart (-v) - posPart (-b t)) := by
  have h1 : (fun i => posPart (-Function.update b t v i))
      = Function.update (fun j => posPart (-b j)) t (posPart (-v)) := by
    funext i
    by_cases hi : i = t
    · subst hi; simp
    · simp [Function.update_noteq hi]
  calc (∑ i : Fin 24, posPart (-Function.update b t v i))
      = ∑ i : Fin 24, Function.update (fun j => posPart (-b j)) t (posPart (-v)) i := by
        rw [h1]
    _ = posPart (-v) + ∑ i in Finset.univ \ {t}, posPart (-b i) :=
        Finset.sum_update_of_mem (Finset.mem_univ t) _ _
    _ = (∑ i : Fin 24, posPart (-b i)) + (posPart (-v) - posPart (-b t)) := by
        rw [Finset.sum_eq_sum_diff_singleton_add (Finset.mem_univ t)
          (fun j => posPart (-b j))]
        ring

/-- A validated move from a numeric origin starts on a point the mover
occupies. -/
theorem isValidMove_src_point (board : Board) (bar borneOff : PairCount)
    (f : Fin 24) (dst : Dest) (die : ℕ) (p : Player)
    (h : isValidMove board bar borneOff (.point f) dst die p = true) :
    0 < board f * playerSign p := by
  unfold isValidMove at h
  dsimp only at h
  split at h
  · exact Bool.noConfusion h
  split at h
  · exact Bool.noConfusion h
  rename_i hf
  exact not_le.mp hf

/-- A validated move to a numeric destination lands on a point holding at
most one opposing checker. -/
theorem isValidMove_dst_point (board : Board) (bar borneOff : PairCount)
    (src : Origin) (t : Fin 24) (die : ℕ) (p : Player)
    (h : isValidMove board bar borneOff src (.point t) die p = true) :
    -1 ≤ board t * playerSign p := by
  cases src with
  | bar =>
    unfold isValidMove at h
    dsimp only at h
    split at h
    · exact Bool.noConfusion h
    split at h
    · exact Bool.noConfusion h
    split at h
    · exact Bool.noConfusion h
    rename_i hentry
    rw [decide_eq_true_iff] at h
    rw [← h] at hentry
    rw [boardAt_val] at hentry
    omega
  | point f =>
    unfold isValidMove at h
    dsimp only at h
    split at h
    · exact Bool.noConfusion h
    split at h
    · exact Bool.noConfusion h
    split at h
    · exact Bool.noConfusion h
    split at h
    · exact Bool.noConfusion h
    rename_i hblock
    rw [decide_eq_true_iff] at h
    rw [← h] at hblock
    rw [boardAt_val] at hblock
    omega

/-- A bar origin with an off destination is never a valid move. -/
theorem isValidMove_bar_off (board : Board) (bar borneOff : PairCount)
    (die : ℕ) (p : Player) :
    isValidMove board bar borneOff .bar .off die p = false := by
  unfold isValidMove
  dsimp only
  split
  · rfl
  split
  · rfl
  split
  · rfl
  rfl

/-- Executing a validated move preserves each player's total checker
count (board points + bar + borne-off). -/
theorem executeMove_conserves (board : Board) (bar borneOff : PairCount)
    (src : Origin) (dst : Dest) (die : ℕ) (p q : Player)
    (hvalid : isValidMove board bar borneOff src dst die p = true) :
    countOf (executeMove board bar borneOff src dst p).board
        (executeMove board bar borneOff src dst p).bar
        (executeMove board bar borneOff src dst p).borneOff q
      = countOf board bar borneOff q := by
  cases src with
  | point f =>
    have hsrc := isValidMove_src_point board bar borneOff f dst die p hvalid
    cases dst with
    | off =>
      unfold executeMove countOf
      dsimp only
      cases p <;> cases q <;>
        simp only [playerSign, PairCount.get, PairCount.inc, mul_one, one_mul,
          mul_neg_one, neg_one_mul, sum_posPart_update,
          sum_posPart_neg_update] at hsrc ⊢ <;>
        simp only [posPart] <;> omega
    | point t =>
      have hdst := isValidMove_dst_point board bar borneOff (.point f) t die p
        hvalid
      unfold executeMove countOf
      dsimp only
      split
      next hhit =>
        have hne : t ≠ f := by
          intro heq
          subst heq
          rw [Function.update_same] at hhit
          cases p <;>
            simp only [playerSign, mul_one, mul_neg_one] at hhit hsrc <;> omega
        rw [Function.update_noteq hne] at hhit
        cases p <;> cases q <;>
          simp only [playerSign, PairCount.get, PairCount.inc, PairCount.dec,
            otherPlayer, mul_one, one_mul, mul_neg_one, neg_one_mul,
            Function.update_same, Function.update_noteq hne, zero_add,
            sum_posPart_update, sum_posPart_neg_update] at hhit hsrc ⊢ <;>
          simp only [posPart] <;> omega
      next hhit =>
        by_cases hef : t = f
        · subst hef
          rw [Function.update_same] at hhit
          cases p <;> cases q <;>
            simp only [playerSign, PairCount.get, mul_one, one_mul,
              mul_neg_one, neg_one_mul, Function.update_same,
              sum_posPart_update, sum_posPart_neg_update] at hhit hsrc ⊢ <;>
            simp only [posPart] <;> omega
        · rw [Function.update_noteq hef] at hhit
          cases p <;> cases q <;>
            simp only [playerSign, PairCount.get, mul_one, one_mul,
              mul_neg_one, neg_one_mul, Function.update_same,
              Function.update_noteq hef, sum_posPart_update,
              sum_posPart_neg_update] at hhit hsrc hdst ⊢ <;>
            simp only [posPart] <;> omega
  | bar =>
    cases dst with
    | off =>
      rw [isValidMove_bar_off] at hvalid
      exact Bool.noConfusion hvalid
    | point t =>
      have hdst := isValidMove_dst_point board bar borneOff .bar t die p hvalid
      unfold executeMove countOf
      dsimp only
      split
      next hhit =>
        cases p <;> cases q <;>
          simp only [playerSign, PairCount.get, PairCount.inc, PairCount.dec,
            otherPlayer, mul_one, one_mul, mul_neg_one, neg_one_mul,
            Function.update_same, zero_add, sum_posPart_update,
            sum_posPart_neg_update] at hhit ⊢ <;>
          simp only [posPart] <;> omega
      next hhit =>
        cases p <;> cases q <;>
          simp only [playerSign, PairCount.get, PairCount.inc, PairCount.dec,
            otherPlayer, mul_one, one_mul, mul_neg_one, neg_one_mul,
            sum_posPart_update, sum_posPart_neg_update] at hhit hdst ⊢ <;>
          simp only [posPart] <;> omega

/-- C6: checker conservation is an invariant — in every record reachable
from the opening layout by endpoint calls (roll, validated move, endTurn)
and resets, each player's points + bar + borne-off total 15. -/
theorem C6_checker_conservation (g : Game) (h : Reachable g) :
    gameCount g .one = 15 ∧ gameCount g .two = 15 := by
  induction h with
  | init startingPlayer =>
    cases startingPlayer <;> exact ⟨by decide, by decide⟩
  | step g gNew hr hstep ih =>
    cases hstep with
    | reset startingPlayer =>
      cases startingPlayer <;> exact ⟨by decide, by decide⟩
    | api player a gNew hdice hok =>
      rcases post_ok_material g player a gNew hok with
        ⟨src, dst, die, hv, hb, hbar, hbo⟩ | ⟨hb, hbar, hbo⟩
      · have h1 := executeMove_conserves g.board g.bar g.borneOff src dst die
          player .one hv
        have h2 := executeMove_conserves g.board g.bar g.borneOff src dst die
          player .two hv
        unfold gameCount
        rw [hb, hbar, hbo]
        unfold gameCount at ih
        exact ⟨h1.trans ih.1, h2.trans ih.2⟩
      · unfold gameCount
        rw [hb, hbar, hbo]
        exact ih

/-- Witness for C6 at the fresh game itself. -/
theorem C6_checker_conservation_witness :
    gameCount (freshGame .one) .one = 15 ∧ gameCount (freshGame .one) .two = 15 :=
  C6_checker_conservation (freshGame .one) (Reachable.init .one)

/-- C7: no point of a reachable record holds checkers of both signs (the
signed-count representation makes the two signs exclusive); a validated
move to a numeric destination never lands on a point with two or more
opposing checkers; and `executeMove` handles a lone opposing checker on
the destination by clearing the point to the mover's single checker and
incrementing the opponent's bar. -/
theorem C7_no_mixed_occupancy :
    (∀ g, Reachable g → ∀ i : Fin 24, ¬(0 < g.board i ∧ g.board i < 0))
    ∧ (∀ (board : Board) (bar borneOff : PairCount) (src : Origin)
        (t : Fin 24) (die : ℕ) (p : Player),
        isValidMove board bar borneOff src (.point t) die p = true →
          -1 ≤ board t * playerSign p)
    ∧ (∀ (board : Board) (bar borneOff : PairCount) (f t : Fin 24) (p : Player),
        board t * playerSign p = -1 → t ≠ f →
          (executeMove board bar borneOff (.point f) (.point t) p).board t
              = playerSign p
            ∧ (executeMove board bar borneOff (.point f) (.point t) p).bar.get
                (otherPlayer p)
              = bar.get (otherPlayer p) + 1) := by
  refine ⟨?_, ?_, ?_⟩
  · intro g _ i hmix
    omega
  · intro board bar borneOff src t die p h
    exact isValidMove_dst_point board bar borneOff src t die p h
  · intro board bar borneOff f t p hlone hne
    unfold executeMove
    dsimp only
    rw [if_pos (by rw [Function.update_noteq hne]; exact hlone)]
    constructor
    · dsimp only
      rw [Function.update_same, Function.update_same, zero_add]
    · cases p <;> rfl

/-- Witness for C7 at the fresh game and the spec's hit scenario (lone
Player 2 checker on point 4, Player 1 moving 0 → 4 with die 4). -/
theorem C7_no_mixed_occupancy_witness :
    ¬(0 < (freshGame .one).board 0 ∧ (freshGame .one).board 0 < 0)
    ∧ -1 ≤ hitScenarioBoard 4 * playerSign .one
    ∧ ((executeMove hitScenarioBoard ⟨0, 0⟩ ⟨0, 0⟩ (.point 0) (.point 4)
            .one).board 4
          = playerSign .one
        ∧ (executeMove hitScenarioBoard ⟨0, 0⟩ ⟨0, 0⟩ (.point 0) (.point 4)
            .one).bar.get (otherPlayer .one)
          = (⟨0, 0⟩ : PairCount).get (otherPlayer .one) + 1) :=
  ⟨C7_no_mixed_occupancy.1 (freshGame .one) (Reachable.init .one) 0,
   C7_no_mixed_occupancy.2.1 hitScenarioBoard ⟨0, 0⟩ ⟨0, 0⟩ (.point 0) 4 4 .one
     (by decide),
   C7_no_mixed_occupancy.2.2 hitScenarioBoard ⟨0, 0⟩ ⟨0, 0⟩ 0 4 .one (by decide)
     (by decide)⟩

/-- C9 counterexample: with the winner already set, a request by the
player not on turn is rejected with the not-your-turn error, not the
game-over error; and a raw record in which both borne-off counts can
reach 15 crowns Player 1 even when Player 2 made the move. -/
theorem C9_gameover_error_cex :
    (post wonGame .two (.move (.point 0) (.point 1) 1) = .error .notYourTurn
      ∧ post wonGame .two (.move (.point 0) (.point 1) 1) ≠ .error .gameOver)
    ∧ (post doubleFifteenGame .two (.move (.point 0) .off 1)).toOption.map
        Game.winner = some (some Player.one) := by
  decide

/-- C9 amended: a successful move whose result puts the mover's borne-off
count at 15 — with the opponent's count not 15 — sets the winner to the
mover; once the winner is set, every request is rejected and the record is
left unwritten: with the game-over error for the player on turn, with the
not-your-turn error otherwise. -/
theorem C9_winner_and_rejection :
    (∀ g p src dst die g2, post g p (.move src dst die) = .ok g2 →
      g2.borneOff.get p = 15 → g2.borneOff.get (otherPlayer p) ≠ 15 →
      g2.winner = some p)
    ∧ (∀ g p a, g.winner ≠ none → ∃ e, post g p a = .error e)
    ∧ (∀ g p a, g.winner ≠ none → g.currentTurn = p →
        post g p a = .error .gameOver) := by
  refine ⟨?_, ?_, ?_⟩
  · intro g p src dst die g2 h h15 hother
    obtain ⟨-, -, -, hbo, hw⟩ := post_move_ok g p src dst die g2 h
    have hw2 : g2.winner = checkWinner g2.borneOff := by rw [hw, hbo]
    rw [hw2]
    unfold checkWinner
    cases p with
    | one =>
      have h1 : g2.borneOff.player1 = 15 := h15
      simp [h1]
    | two =>
      have h1 : g2.borneOff.player1 ≠ 15 := hother
      have h2 : g2.borneOff.player2 = 15 := h15
      simp [h1, h2]
  · intro g p a hwin
    by_cases hturn : g.currentTurn = p
    · exact ⟨.gameOver, by simp [post, hturn, hwin]⟩
    · exact ⟨.notYourTurn, by simp [post, hturn]⟩
  · intro g p a hwin hturn
    simp [post, hturn, hwin]

/-- Witness for C9's amended theorem: Player 1's winning bear-off from
`nearWinGame`, and rejections on the finished game. -/
theorem C9_winner_and_rejection_witness :
    nearWinGameAfter.winner = some Player.one
    ∧ (∃ e, post wonGame .two .endTurn = .error e)
    ∧ post wonGame .one .endTurn = .error .gameOver :=
  ⟨C9_winner_and_rejection.1 nearWinGame .one (.point 23) .off 1
      nearWinGameAfter rfl rfl (by decide),
   C9_winner_and_rejection.2.1 wonGame .two .endTurn (by decide),
   C9_winner_and_rejection.2.2 wonGame .one .endTurn (by decide) rfl⟩

end Backgammon
